import Mathlib

/-!
Verification of the retry-with-backoff executor and the secret resolution
cache of `amptimal_shared` (files `retry.py` and `secrets.py`), via a
shallow embedding of their control flow in Lean.

Conventions of the embedding:
* Python integers are `Int`; loop indices that are provably non-negative
  are `Nat`.
* A fallible zero-argument operation is a function from the invocation
  index (0-based) to an `Outcome`: either a success value or a raised
  exception.  Exceptions are an abstract type `ε`; the `isinstance` check
  against the `retryable_exceptions` tuple is a predicate `retryable : ε → Bool`.
* Side effects (invoking the operation, calling `on_retry`, sleeping) are
  recorded in an event trace so that counting and ordering claims can be
  stated.
-/

namespace Amptimal

/-- Result of one invocation of the wrapped operation: it returns a value
or raises an exception. -/
inductive Outcome (α ε : Type) where
  | ok (v : α)
  | err (e : ε)
deriving DecidableEq

/-- Result of running the wrapper: the wrapped function's value is
returned, an exception propagates, or the wrapper falls off the end of its
body and (as Python does) returns `None`. -/
inductive RunResult (α ε : Type) where
  | value (v : α)
  | raised (e : ε)
  | nothing
deriving DecidableEq

/-- Observable events of one run of the wrapper, in order: invocation of
the wrapped operation (`call i` = invocation with 0-based attempt index
`i`), invocation of the `on_retry` callback, and sleeping. -/
inductive REvent (ε : Type) where
  | call (i : Nat)
  | onRetry (e : ε) (attempt : Nat)
  | sleep (d : Int)
deriving DecidableEq

/-- Embedding of `retry.calculate_backoff`: `int(min(base**attempt, max_backoff_seconds))`.
On integer arguments with `attempt ≥ 0` (the only way the library calls it),
`base**attempt` is an exact integer and the outer `int(...)` is the
identity, so the embedding drops it.  Python defaults: `max_backoff_seconds=300`,
`base=2`; the embedding passes them explicitly. -/
def calculate_backoff (attempt : Nat) (max_backoff_seconds : Int) (base : Int) : Int :=
  min (base ^ attempt) max_backoff_seconds

/-- The `for attempt in range(max_attempts)` loop of
`retry_with_backoff.decorator.wrapper` (retry.py lines 78-102), unrolled as
structural recursion on the number of remaining iterations.  `attempt` is
the current 0-based index, `remaining` the number of iterations left
(`max_attempts.toNat - attempt` at the top call), `lastExc` the
`last_exception` variable.  When the loop ends, `if last_exception: raise
last_exception` runs (standard exception objects are truthy, so the test
is `last_exception is not None`); with no exception recorded the function
returns Python `None`.  Inside the loop: a success returns immediately; a
retryable exception is recorded, and if attempts remain the delay is
computed with the default base 2, `on_retry` is called if provided, and
the thread sleeps; a non-retryable exception is not caught and propagates. -/
def wrapperAux (max_attempts max_backoff : Int) (retryable : ε → Bool)
    (has_on_retry : Bool) (op : Nat → Outcome α ε) :
    Nat → Nat → Option ε → RunResult α ε × List (REvent ε)
  | _, 0, lastExc =>
      match lastExc with
      | some e => (RunResult.raised e, [])
      | none => (RunResult.nothing, [])
  | attempt, remaining + 1, _ =>
      match op attempt with
      | Outcome.ok v => (RunResult.value v, [REvent.call attempt])
      | Outcome.err e =>
          if retryable e then
            if (attempt : Int) < max_attempts - 1 then
              let delay := calculate_backoff attempt max_backoff 2
              let rest := wrapperAux max_attempts max_backoff retryable has_on_retry op
                (attempt + 1) remaining (some e)
              (rest.1,
                REvent.call attempt ::
                  ((if has_on_retry then [REvent.onRetry e attempt] else []) ++
                    REvent.sleep delay :: rest.2))
            else
              let rest := wrapperAux max_attempts max_backoff retryable has_on_retry op
                (attempt + 1) remaining (some e)
              (rest.1, REvent.call attempt :: rest.2)
          else
            (RunResult.raised e, [REvent.call attempt])

/-- Embedding of `retry.retry_with_backoff`: the function `wrapper` produced by the
decorator, run on an operation `op`.  Python's `range(max_attempts)` is
empty for `max_attempts ≤ 0`, which `Int.toNat` reproduces.  Returns the
run result together with the event trace. -/
def retry_with_backoff (max_attempts max_backoff : Int) (retryable : ε → Bool)
    (has_on_retry : Bool) (op : Nat → Outcome α ε) :
    RunResult α ε × List (REvent ε) :=
  wrapperAux max_attempts max_backoff retryable has_on_retry op 0 max_attempts.toNat none

/-- Attempt loop of `retry.async_retry_with_backoff` (retry.py lines
139-160).  Its body is the same control flow as the synchronous wrapper;
the only difference in the source is `await func()` / `await asyncio.sleep`
in place of the direct call and the blocking sleep, which the event trace
does not distinguish. -/
def asyncRetryAux (max_attempts max_backoff : Int) (retryable : ε → Bool)
    (has_on_retry : Bool) (op : Nat → Outcome α ε) :
    Nat → Nat → Option ε → RunResult α ε × List (REvent ε)
  | _, 0, lastExc =>
      match lastExc with
      | some e => (RunResult.raised e, [])
      | none => (RunResult.nothing, [])
  | attempt, remaining + 1, _ =>
      match op attempt with
      | Outcome.ok v => (RunResult.value v, [REvent.call attempt])
      | Outcome.err e =>
          if retryable e then
            if (attempt : Int) < max_attempts - 1 then
              let delay := calculate_backoff attempt max_backoff 2
              let rest := asyncRetryAux max_attempts max_backoff retryable has_on_retry op
                (attempt + 1) remaining (some e)
              (rest.1,
                REvent.call attempt ::
                  ((if has_on_retry then [REvent.onRetry e attempt] else []) ++
                    REvent.sleep delay :: rest.2))
            else
              let rest := asyncRetryAux max_attempts max_backoff retryable has_on_retry op
                (attempt + 1) remaining (some e)
              (rest.1, REvent.call attempt :: rest.2)
          else
            (RunResult.raised e, [REvent.call attempt])

/-- Embedding of `retry.async_retry_with_backoff` run on an operation `op`. -/
def async_retry_with_backoff (max_attempts max_backoff : Int) (retryable : ε → Bool)
    (has_on_retry : Bool) (op : Nat → Outcome α ε) :
    RunResult α ε × List (REvent ε) :=
  asyncRetryAux max_attempts max_backoff retryable has_on_retry op 0 max_attempts.toNat none

/-- The attempt indices at which the wrapped operation was invoked, in
order. -/
def callsOf (t : List (REvent ε)) : List Nat :=
  t.filterMap fun ev =>
    match ev with
    | REvent.call i => some i
    | _ => none

/-- The attempt indices passed to the `on_retry` callback, in order. -/
def onRetryAttempts (t : List (REvent ε)) : List Nat :=
  t.filterMap fun ev =>
    match ev with
    | REvent.onRetry _ a => some a
    | _ => none

/-- A Python value as it flows through `secrets.py`: Python `None` (also
the "absence marker"), or any value `json.loads` can produce. -/
inductive PyVal where
  | none
  | bool (b : Bool)
  | int (n : Int)
  | str (s : String)
  | list (xs : List PyVal)
  | dict (fields : List (String × PyVal))

/-- Python's `v is None`. -/
def PyVal.isNone : PyVal → Bool
  | PyVal.none => true
  | _ => false

/-- Whether the value is a mapping (a Python dict). -/
def PyVal.isMapping : PyVal → Bool
  | PyVal.dict _ => true
  | _ => false

/-- The spec's "exactly one of {resolved mapping, absence}". -/
def mappingOrAbsent (v : PyVal) : Bool :=
  v.isMapping || v.isNone

/-- Kinds of Python exceptions arising along the secret-fetching paths.
All of them are `Exception` subclasses. -/
inductive PyExc where
  | importError
  | jsonDecodeError
  | otherError
deriving DecidableEq

/-- What the external boto3/AWS interaction inside the `try` block of
`_fetch_from_aws` does for a given `(secret_name, region)`.  Modelled from
the spec: the primary source is an external collaborator (cloud secret
store and its SDK); only the control flow around it is repository code.
`secretBinary Option.none` stands for a binary response whose
`.decode("utf-8")` raises. -/
inductive AwsOutcome where
  | importError
  | raises
  | secretString (s : String)
  | secretBinary (decoded : Option String)

/-- The external collaborators of `secrets.py`.  `jsonLoads` models the
standard library's `json.loads` applied to a string: `some v` when parsing
succeeds with value `v`, `Option.none` when it raises
`json.JSONDecodeError` (the failure it produces on string input).  `env`
models `os.getenv`.  Modelled from the spec: both lookup sources and the
JSON codec are external to the repository. -/
structure SecretsWorld where
  awsRaw : String → String → AwsOutcome
  jsonLoads : String → Option PyVal
  env : String → Option String

/-- The derived key `secret_name.replace("/", "_").upper()` (secrets.py line 122),
written character by character: replacing the single-character pattern
`"/"` is the per-character substitution, and `.upper()` upper-cases each
character. -/
def envKey (secret_name : String) : String :=
  String.mk (secret_name.data.map fun ch => (if ch = '/' then '_' else ch).toUpper)

/-- The `try` block of `_fetch_from_aws` (secrets.py lines 84-97): import
the SDK, fetch the secret, then either JSON-parse the `SecretString` or
decode the binary payload into a single-entry dict.  Each failure raises. -/
def fetch_from_aws_try (w : SecretsWorld) (secret_name region : String) :
    Except PyExc PyVal :=
  match w.awsRaw secret_name region with
  | AwsOutcome.importError => Except.error PyExc.importError
  | AwsOutcome.raises => Except.error PyExc.otherError
  | AwsOutcome.secretString s =>
      match w.jsonLoads s with
      | some v => Except.ok v
      | Option.none => Except.error PyExc.jsonDecodeError
  | AwsOutcome.secretBinary (some s) =>
      Except.ok (PyVal.dict [("value", PyVal.str s)])
  | AwsOutcome.secretBinary Option.none => Except.error PyExc.otherError

/-- Embedding of `_fetch_from_aws`: the try block wrapped in its two handlers,
`except ImportError: return None` and `except Exception as e: return None`
(every modelled exception kind is an `Exception` subclass, so the second
arm catches everything the first did not). -/
def fetch_from_aws (w : SecretsWorld) (secret_name region : String) :
    Except PyExc PyVal :=
  match fetch_from_aws_try w secret_name region with
  | Except.ok v => Except.ok v
  | Except.error PyExc.importError => Except.ok PyVal.none
  | Except.error _ => Except.ok PyVal.none

/-- Embedding of `_fetch_from_env` (secrets.py lines 107-134): look up the transformed
name in the environment; an absent variable gives `None`; otherwise
`json.loads` the raw string, where a parse failure (`JSONDecodeError`,
caught together with `TypeError`) wraps the raw string as a single-entry
dict under the key `"value"`. -/
def fetch_from_env (w : SecretsWorld) (secret_name : String) :
    Except PyExc PyVal :=
  match w.env (envKey secret_name) with
  | Option.none => Except.ok PyVal.none
  | some raw =>
      match w.jsonLoads raw with
      | some v => Except.ok v
      | Option.none => Except.ok (PyVal.dict [("value", PyVal.str raw)])

/-- The module-level `_cache` dict: secret name → cached value.  A cached
Python `None` is the absence marker.  Represented as an association list
where the most recent binding shadows older ones. -/
def Cache : Type := List (String × PyVal)

/-- Membership test plus read, `secret_name in _cache` / `_cache[secret_name]`. -/
def cacheLookup : Cache → String → Option PyVal
  | [], _ => Option.none
  | (k, v) :: rest, key => if k = key then some v else cacheLookup rest key

/-- Assignment `_cache[secret_name] = value`: the new binding shadows any
older one under `cacheLookup`. -/
def cacheInsert (c : Cache) (k : String) (v : PyVal) : Cache :=
  (k, v) :: c

/-- Embedding of `clear_cache` (secrets.py lines 68-71): `_cache.clear()`. -/
def clear_cache : Cache :=
  []

/-- Lookup-source invocations performed by one `get_secret` call. -/
inductive SEvent where
  | awsCall (name region : String)
  | envCall (name : String)
deriving DecidableEq

/-- Embedding of `get_secret` (secrets.py lines 29-65) on cache state `c`: a cache hit
returns the entry with no source invocation; otherwise the primary (AWS)
source is tried and a non-`None` result is cached and returned; otherwise
the environment fallback's result (possibly `None`) is cached and
returned.  The result carries the value, the new cache state, and the
source invocations made.  Uncaught exceptions propagate as
`Except.error`; the only absorption points are the handlers inside the
two fetch helpers. -/
def get_secret (w : SecretsWorld) (c : Cache) (secret_name region : String) :
    Except PyExc (PyVal × Cache × List SEvent) :=
  match cacheLookup c secret_name with
  | some v => Except.ok (v, c, [])
  | Option.none =>
      match fetch_from_aws w secret_name region with
      | Except.error e => Except.error e
      | Except.ok secret =>
          if secret.isNone then
            match fetch_from_env w secret_name with
            | Except.error e => Except.error e
            | Except.ok secret2 =>
                Except.ok (secret2, cacheInsert c secret_name secret2,
                  [SEvent.awsCall secret_name region, SEvent.envCall secret_name])
          else
            Except.ok (secret, cacheInsert c secret_name secret,
              [SEvent.awsCall secret_name region])

/-- Number of primary-source invocations recorded in a trace. -/
def awsCalls (t : List SEvent) : Nat :=
  (t.filter fun ev =>
    match ev with
    | SEvent.awsCall _ _ => true
    | _ => false).length

/-- The JSON text of the spec's secondary-source example, `'{"host":"x"}'`. -/
def jsonHostX : String :=
  "\x7b\"host\":\"x\"\x7d"

/-- A world where the SDK of the primary source is not installed and the
environment holds `N = "42"`; Python's `json.loads("42")` returns the
integer `42`, which the model records. -/
def intWorld : SecretsWorld where
  awsRaw := fun _ _ => AwsOutcome.importError
  jsonLoads := fun s => if s = "42" then some (PyVal.int 42) else Option.none
  env := fun k => if k = "N" then some "42" else Option.none

/-- A world where both sources fail: the primary raises, the environment
is empty, and nothing parses as JSON. -/
def emptyWorld : SecretsWorld where
  awsRaw := fun _ _ => AwsOutcome.raises
  jsonLoads := fun _ => Option.none
  env := fun _ => Option.none

/-- A world realising the spec's first secondary-source example: the
primary SDK is missing and `AMPTIMAL_SMTP` holds `'{"host":"x"}'`, which
Python's json module parses to the mapping. -/
def worldJson : SecretsWorld where
  awsRaw := fun _ _ => AwsOutcome.importError
  jsonLoads := fun s =>
    if s = jsonHostX then some (PyVal.dict [("host", PyVal.str "x")]) else Option.none
  env := fun k => if k = "AMPTIMAL_SMTP" then some jsonHostX else Option.none

/-- A world realising the spec's second secondary-source example: the
primary SDK is missing and `AMPTIMAL_SMTP` holds the non-JSON raw string
`"plain"`. -/
def worldPlain : SecretsWorld where
  awsRaw := fun _ _ => AwsOutcome.importError
  jsonLoads := fun _ => Option.none
  env := fun k => if k = "AMPTIMAL_SMTP" then some "plain" else Option.none

/-- The async loop is the same function of its inputs as the synchronous
loop: the two source bodies differ only in the suspension mechanism. -/
theorem asyncRetryAux_eq_wrapperAux (ma mb : Int) (retryable : ε → Bool)
    (hor : Bool) (op : Nat → Outcome α ε) :
    ∀ r a lastE, asyncRetryAux ma mb retryable hor op a r lastE =
      wrapperAux ma mb retryable hor op a r lastE := by
  intro r
  induction r with
  | zero => intro a lastE; rfl
  | succ n ih =>
      intro a lastE
      simp only [asyncRetryAux, wrapperAux]
      cases op a with
      | ok v => rfl
      | err e =>
          by_cases hre : retryable e
          · by_cases hlt : (a : Int) < ma - 1 <;> simp [hre, hlt, ih]
          · simp [hre]

/-- On an operation that fails with a retryable exception at every
invocation, with `r ≥ 1` iterations remaining at attempt index `a` and
`a + r = max_attempts`, the loop invokes the operation at attempts
`a, a+1, …, a+r-1` and ends by raising the exception of the last attempt. -/
theorem wrapperAux_allFail (ma mb : Int) (retryable : ε → Bool) (hor : Bool)
    (errOf : Nat → ε) (op : Nat → Outcome α ε)
    (hop : ∀ i, op i = Outcome.err (errOf i))
    (hr : ∀ i, retryable (errOf i) = true) :
    ∀ (r a : Nat) (lastE : Option ε), (a : Int) + ((r : Int) + 1) = ma →
      ∃ t, wrapperAux ma mb retryable hor op a (r + 1) lastE =
          (RunResult.raised (errOf (a + r)), t) ∧
        callsOf t = List.range' a (r + 1) := by
  intro r
  induction r with
  | zero =>
      intro a lastE hsum
      have hlt : ¬ ((a : Int) < ma - 1) := by omega
      refine ⟨[REvent.call a], ?_, ?_⟩
      · simp [wrapperAux, hop a, hr a, hlt]
      · simp [callsOf, List.range']
  | succ n ih =>
      intro a lastE hsum
      have hlt : (a : Int) < ma - 1 := by push_cast at hsum ⊢; omega
      have hsum' : ((a + 1 : Nat) : Int) + (n + 1) = ma := by push_cast at hsum ⊢; omega
      obtain ⟨t, ht, hcalls⟩ := ih (a + 1) (some (errOf a)) hsum'
      refine ⟨REvent.call a ::
        ((if hor then [REvent.onRetry (errOf a) a] else []) ++
          REvent.sleep (calculate_backoff a mb 2) :: t), ?_, ?_⟩
      · have hidx : a + 1 + n = a + (n + 1) := by omega
        simp only [wrapperAux] at ht ⊢
        push_cast at ht ⊢
        simp [hop a, hr a, hlt, hidx, ht]
      · have : a + 1 + n = a + (n + 1) := by omega
        cases hor <;>
          simp_all [callsOf, List.range'_succ]

/-- The function `callsOf` distributes over trace concatenation. -/
theorem callsOf_append (t₁ t₂ : List (REvent ε)) :
    callsOf (t₁ ++ t₂) = callsOf t₁ ++ callsOf t₂ := by
  simp [callsOf, List.filterMap_append]

/-- The function `onRetryAttempts` distributes over trace concatenation. -/
theorem onRetryAttempts_append (t₁ t₂ : List (REvent ε)) :
    onRetryAttempts (t₁ ++ t₂) = onRetryAttempts t₁ ++ onRetryAttempts t₂ := by
  simp [onRetryAttempts, List.filterMap_append]

/-- The invocation indices of a row of per-attempt retry blocks are
exactly the indices of the row. -/
theorem callsOf_blocks (mb : Int) (errOf : Nat → ε) (l : List Nat) :
    callsOf (l.flatMap fun i =>
      [REvent.call i, REvent.onRetry (errOf i) i,
        REvent.sleep (calculate_backoff i mb 2)]) = l := by
  induction l with
  | nil => rfl
  | cons x xs ih => simp_all [callsOf]

/-- The `on_retry` attempt indices of a row of per-attempt retry blocks
with the callback present are exactly the indices of the row. -/
theorem onRetryAttempts_blocks (mb : Int) (errOf : Nat → ε) (l : List Nat) :
    onRetryAttempts (l.flatMap fun i =>
      [REvent.call i, REvent.onRetry (errOf i) i,
        REvent.sleep (calculate_backoff i mb 2)]) = l := by
  induction l with
  | nil => rfl
  | cons x xs ih => simp_all [onRetryAttempts]

/-- On an operation that fails with a retryable exception at every
invocation before attempt `s` and succeeds at attempt `s`, with the loop
at attempt `a ≤ s` and enough iterations remaining to reach `s`, the run
returns the success value; the trace is one block
`call i, (on_retry i), sleep` per failed attempt `i ∈ [a, s)` followed by
the successful invocation. -/
theorem wrapperAux_succeedAt (ma mb : Int) (retryable : ε → Bool) (hor : Bool)
    (errOf : Nat → ε) (op : Nat → Outcome α ε) (v : α) (s : Nat)
    (hop : ∀ i, i < s → op i = Outcome.err (errOf i)) (hs : op s = Outcome.ok v)
    (hr : ∀ i, retryable (errOf i) = true) (hsma : (s : Int) < ma) :
    ∀ (r a : Nat) (lastE : Option ε), a ≤ s → s < a + r →
      wrapperAux ma mb retryable hor op a r lastE =
        (RunResult.value v,
          ((List.range' a (s - a)).flatMap fun i =>
            REvent.call i :: ((if hor then [REvent.onRetry (errOf i) i] else []) ++
              [REvent.sleep (calculate_backoff i mb 2)])) ++ [REvent.call s]) := by
  intro r
  induction r with
  | zero => intro a lastE ha hs'; omega
  | succ n ih =>
      intro a lastE ha hs'
      rcases Nat.lt_or_ge a s with hlt | hge
      · have hlt2 : (a : Int) < ma - 1 := by omega
        have hsa : s - a = (s - (a + 1)) + 1 := by omega
        have step := ih (a + 1) (some (errOf a)) (by omega) (by omega)
        simp only [wrapperAux] at step ⊢
        simp [hop a hlt, hr a, hlt2, step, hsa, List.range'_succ]
      · have haeq : a = s := by omega
        subst haeq
        simp [wrapperAux, hs, Nat.sub_self, List.range']

end Amptimal

namespace Amptimal

/-- C2: `calculate_backoff attempt mb base` is `min (base ^ attempt) mb`
for every non-negative integer attempt; with `base = 2` and
`mb = 300`, attempts 0-4 give 1, 2, 4, 8, 16 and every attempt ≥ 9 gives
300. -/
theorem calculate_backoff_spec (attempt : Nat) (mb base : Int) :
    calculate_backoff attempt mb base = min (base ^ attempt) mb ∧
    calculate_backoff 0 300 2 = 1 ∧ calculate_backoff 1 300 2 = 2 ∧
    calculate_backoff 2 300 2 = 4 ∧ calculate_backoff 3 300 2 = 8 ∧
    calculate_backoff 4 300 2 = 16 ∧
    ∀ a : Nat, 9 ≤ a → calculate_backoff a 300 2 = 300 := by
  refine ⟨rfl, by decide, by decide, by decide, by decide, by decide, ?_⟩
  intro a ha
  have h2 : (300 : Int) ≤ 2 ^ a := by
    calc (300 : Int) ≤ 2 ^ 9 := by decide
    _ ≤ 2 ^ a := pow_le_pow_right₀ one_le_two ha
  simpa [calculate_backoff] using min_eq_right h2

theorem calculate_backoff_spec_witness : calculate_backoff 9 300 2 = 300 :=
  (calculate_backoff_spec 0 300 2).2.2.2.2.2.2 9 (by decide)

/-- C9: with `max_attempts ≤ 0` the wrapper's loop body never runs, no
exception is recorded, and the wrapper returns Python `None` without
invoking the operation (empty trace) and without raising. -/
theorem retry_nonpositive_attempts (ma mb : Int) (retryable : ε → Bool)
    (hor : Bool) (op : Nat → Outcome α ε) (hma : ma ≤ 0) :
    retry_with_backoff ma mb retryable hor op = (RunResult.nothing, []) := by
  have h0 : ma.toNat = 0 := by omega
  simp [retry_with_backoff, h0, wrapperAux]

theorem retry_nonpositive_attempts_witness :
    retry_with_backoff (α := Nat) (ε := Nat) 0 300 (fun _ => true) true
      (fun i => Outcome.err i) = (RunResult.nothing, []) :=
  retry_nonpositive_attempts 0 300 (fun _ => true) true
    (fun i => Outcome.err i) (by decide)

/-- C4: an exception whose type is not in `retryable_exceptions` is not
caught: the operation is invoked exactly once regardless of
`max_attempts` (any positive value, as the policy requires), the exception
object propagates immediately, and `on_retry` is never invoked.  The trace
is exactly one invocation event. -/
theorem retry_nonretryable_propagates (ma mb : Int) (retryable : ε → Bool)
    (hor : Bool) (op : Nat → Outcome α ε) (e : ε)
    (hma : 1 ≤ ma) (hop : op 0 = Outcome.err e) (hr : retryable e = false) :
    retry_with_backoff ma mb retryable hor op = (RunResult.raised e, [REvent.call 0]) := by
  obtain ⟨n, hn⟩ : ∃ n, ma.toNat = n + 1 := ⟨ma.toNat - 1, by omega⟩
  simp [retry_with_backoff, hn, wrapperAux, hop, hr]

/-- C1: with `max_attempts = N ≥ 1`, an operation that raises a retryable
exception on every invocation is invoked exactly `N` times (attempt
indices `0, …, N-1` in order) and the exception object of the last (`N`-th)
attempt is then raised unwrapped; likewise for the async variant. -/
theorem retry_allFail_invokes_N_raises_last (N : Nat) (hN : 1 ≤ N) (mb : Int)
    (retryable : ε → Bool) (hor : Bool) (errOf : Nat → ε) (op : Nat → Outcome α ε)
    (hop : ∀ i, op i = Outcome.err (errOf i))
    (hr : ∀ i, retryable (errOf i) = true) :
    (∃ t, retry_with_backoff (N : Int) mb retryable hor op =
        (RunResult.raised (errOf (N - 1)), t) ∧
      callsOf t = List.range N) ∧
    (∃ t, async_retry_with_backoff (N : Int) mb retryable hor op =
        (RunResult.raised (errOf (N - 1)), t) ∧
      callsOf t = List.range N) := by
  obtain ⟨m, rfl⟩ : ∃ m, N = m + 1 := ⟨N - 1, by omega⟩
  obtain ⟨t, ht, hcalls⟩ :=
    wrapperAux_allFail (((m + 1 : Nat) : Int)) mb retryable hor errOf op hop hr m 0 none
      (by push_cast; omega)
  have hto : (((m + 1 : Nat) : Int)).toNat = m + 1 := by omega
  have hrange : List.range (m + 1) = List.range' 0 (m + 1) := List.range_eq_range' _
  refine ⟨⟨t, ?_, ?_⟩, ⟨t, ?_, ?_⟩⟩
  · simpa [retry_with_backoff, hto] using ht
  · simp [hcalls, hrange]
  · simp only [async_retry_with_backoff, hto, asyncRetryAux_eq_wrapperAux]
    simpa using ht
  · simp [hcalls, hrange]

theorem retry_allFail_invokes_N_raises_last_witness :
    (∃ t, retry_with_backoff (α := Nat) ((2 : Nat) : Int) 300 (fun _ => true) true
        (fun i => Outcome.err i) = (RunResult.raised 1, t) ∧ callsOf t = List.range 2) ∧
    (∃ t, async_retry_with_backoff (α := Nat) ((2 : Nat) : Int) 300 (fun _ => true) true
        (fun i => Outcome.err i) = (RunResult.raised 1, t) ∧ callsOf t = List.range 2) :=
  retry_allFail_invokes_N_raises_last 2 (by decide) 300 (fun _ => true) true
    (fun i => i) (fun i => Outcome.err i) (fun _ => rfl) (fun _ => rfl)

/-- C3: with `max_attempts = N` and `on_retry` provided, an operation that
raises retryable exceptions on its first `k-1` invocations and succeeds on
invocation `k` (`1 ≤ k ≤ N`) makes the wrapper return the success value of
attempt `k`; the trace is exactly `call i, on_retry i, sleep` for each
failed attempt `i < k-1` (each `on_retry` preceding its sleep) followed by
the final successful invocation — so the operation is invoked exactly `k`
times and `on_retry` exactly `k-1` times with attempt indices `0..k-2` in
order. -/
theorem retry_succeeds_at_k (N k : Nat) (mb : Int) (retryable : ε → Bool)
    (errOf : Nat → ε) (op : Nat → Outcome α ε) (v : α)
    (hk1 : 1 ≤ k) (hkN : k ≤ N)
    (hop : ∀ i, i < k - 1 → op i = Outcome.err (errOf i))
    (hs : op (k - 1) = Outcome.ok v)
    (hr : ∀ i, retryable (errOf i) = true) :
    ∃ t, retry_with_backoff (N : Int) mb retryable true op = (RunResult.value v, t) ∧
      t = ((List.range (k - 1)).flatMap fun i =>
        [REvent.call i, REvent.onRetry (errOf i) i,
          REvent.sleep (calculate_backoff i mb 2)]) ++ [REvent.call (k - 1)] ∧
      callsOf t = List.range k ∧
      onRetryAttempts t = List.range (k - 1) := by
  obtain ⟨j, rfl⟩ : ∃ j, k = j + 1 := ⟨k - 1, by omega⟩
  obtain ⟨m, rfl⟩ : ∃ m, N = m + 1 := ⟨N - 1, by omega⟩
  simp only [Nat.add_sub_cancel] at hop hs ⊢
  have hto : (((m + 1 : Nat) : Int)).toNat = m + 1 := by omega
  have hmain := wrapperAux_succeedAt (((m + 1 : Nat) : Int)) mb retryable true errOf op v
    j hop hs hr (by push_cast; omega) (m + 1) 0 none (by omega) (by omega)
  refine ⟨((List.range j).flatMap fun i =>
      [REvent.call i, REvent.onRetry (errOf i) i,
        REvent.sleep (calculate_backoff i mb 2)]) ++ [REvent.call j], ?_, rfl, ?_, ?_⟩
  · simp only [retry_with_backoff, hto]
    rw [hmain]
    simp [← List.range_eq_range']
  · rw [callsOf_append, callsOf_blocks]
    simp [callsOf, List.range_succ]
  · rw [onRetryAttempts_append, onRetryAttempts_blocks]
    simp [onRetryAttempts]

theorem retry_succeeds_at_k_witness :
    ∃ t, retry_with_backoff (ε := Nat) ((3 : Nat) : Int) 300 (fun _ => true) true
        (fun i => if i = 1 then Outcome.ok 42 else Outcome.err i)
      = (RunResult.value 42, t) ∧
      t = ((List.range 1).flatMap fun i =>
        [REvent.call i, REvent.onRetry i i,
          REvent.sleep (calculate_backoff i 300 2)]) ++ [REvent.call 1] ∧
      callsOf t = List.range 2 ∧
      onRetryAttempts t = List.range 1 :=
  retry_succeeds_at_k 3 2 300 (fun _ => true) (fun i => i)
    (fun i => if i = 1 then Outcome.ok 42 else Outcome.err i) 42
    (by decide) (by decide)
    (fun i hi => by interval_cases i; rfl) rfl (fun _ => rfl)

theorem retry_nonretryable_propagates_witness :
    retry_with_backoff (α := Nat) (ε := Nat) 5 300 (fun e => decide (e ≠ 7)) true
      (fun _ => Outcome.err 7) = (RunResult.raised 7, [REvent.call 0]) :=
  retry_nonretryable_propagates 5 300 (fun e => decide (e ≠ 7)) true
    (fun _ => Outcome.err 7) 7 (by decide) rfl (by decide)

/-- The function `_fetch_from_aws` never lets an exception escape: its two handlers
cover every failure of the try block. -/
theorem fetch_from_aws_absorbs (w : SecretsWorld) (n r : String) :
    ∃ v, fetch_from_aws w n r = Except.ok v := by
  unfold fetch_from_aws
  cases h : fetch_from_aws_try w n r with
  | ok v => exact ⟨v, rfl⟩
  | error e => cases e <;> exact ⟨PyVal.none, rfl⟩

/-- The function `_fetch_from_env` never raises: the only fallible step, `json.loads`,
sits in a `try` whose handler wraps the raw string. -/
theorem fetch_from_env_absorbs (w : SecretsWorld) (n : String) :
    ∃ v, fetch_from_env w n = Except.ok v := by
  unfold fetch_from_env
  cases he : w.env (envKey n) with
  | none => exact ⟨PyVal.none, rfl⟩
  | some raw =>
      cases hj : w.jsonLoads raw with
      | none => exact ⟨PyVal.dict [("value", PyVal.str raw)], by simp [hj]⟩
      | some v => exact ⟨v, by simp [hj]⟩

/-- When every successful JSON parse yields a mapping or null, the primary
fetch yields a mapping or `None`. -/
theorem fetch_from_aws_mapping (w : SecretsWorld) (n r : String)
    (hj : ∀ s v, w.jsonLoads s = some v → mappingOrAbsent v = true) :
    ∃ v, fetch_from_aws w n r = Except.ok v ∧ mappingOrAbsent v = true := by
  unfold fetch_from_aws fetch_from_aws_try
  cases ha : w.awsRaw n r with
  | importError => exact ⟨PyVal.none, rfl, rfl⟩
  | raises => exact ⟨PyVal.none, rfl, rfl⟩
  | secretString s =>
      cases hjs : w.jsonLoads s with
      | none => exact ⟨PyVal.none, by simp [hjs], rfl⟩
      | some v => exact ⟨v, by simp [hjs], hj s v hjs⟩
  | secretBinary d =>
      cases d with
      | none => exact ⟨PyVal.none, rfl, rfl⟩
      | some s => exact ⟨_, rfl, rfl⟩

/-- When every successful JSON parse yields a mapping or null, the
environment fallback yields a mapping or `None`. -/
theorem fetch_from_env_mapping (w : SecretsWorld) (n : String)
    (hj : ∀ s v, w.jsonLoads s = some v → mappingOrAbsent v = true) :
    ∃ v, fetch_from_env w n = Except.ok v ∧ mappingOrAbsent v = true := by
  unfold fetch_from_env
  cases he : w.env (envKey n) with
  | none => exact ⟨PyVal.none, rfl, rfl⟩
  | some raw =>
      cases hjs : w.jsonLoads raw with
      | none => exact ⟨PyVal.dict [("value", PyVal.str raw)], by simp [hjs], rfl⟩
      | some v => exact ⟨v, by simp [hjs], hj raw v hjs⟩

/-- A cache hit returns the entry unchanged with no source invocation. -/
theorem get_secret_cached (w : SecretsWorld) (c : Cache) (n r : String) (v : PyVal)
    (h : cacheLookup c n = some v) :
    get_secret w c n r = Except.ok (v, c, []) := by
  unfold get_secret
  rw [h]

/-- A cache miss resolves without raising, invokes the primary source
exactly once, stores the resolved value, and leaves it retrievable. -/
theorem get_secret_uncached (w : SecretsWorld) (c : Cache) (n r : String)
    (h : cacheLookup c n = Option.none) :
    ∃ v c' t, get_secret w c n r = Except.ok (v, c', t) ∧ awsCalls t = 1 ∧
      c' = cacheInsert c n v ∧ cacheLookup c' n = some v := by
  unfold get_secret
  rw [h]
  obtain ⟨sv, hfa⟩ := fetch_from_aws_absorbs w n r
  rw [hfa]
  cases hsn : sv.isNone with
  | false =>
      refine ⟨sv, cacheInsert c n sv, [SEvent.awsCall n r], ?_, rfl, rfl, ?_⟩
      · simp [hsn]
      · simp [cacheInsert, cacheLookup]
  | true =>
      obtain ⟨ev, hfe⟩ := fetch_from_env_absorbs w n
      refine ⟨ev, cacheInsert c n ev, [SEvent.awsCall n r, SEvent.envCall n], ?_, rfl, rfl, ?_⟩
      · simp [hsn, hfe]
      · simp [cacheInsert, cacheLookup]

/-- C5 counterexample: the claim "the returned outcome is always exactly
one of a resolved mapping or the absence marker" fails on the code.  With
the primary SDK missing and the environment variable `N` (the derived key
of the name `"n"`) holding the string `42` — valid JSON, which Python's
`json.loads` parses to the integer 42 — `get_secret` returns the integer
42, which is neither a mapping nor `None`. -/
theorem get_secret_nonmapping_counterexample :
    get_secret intWorld [] "n" "r" =
      Except.ok (PyVal.int 42, [("n", PyVal.int 42)],
        [SEvent.awsCall "n" "r", SEvent.envCall "n"]) ∧
    mappingOrAbsent (PyVal.int 42) = false :=
  ⟨rfl, rfl⟩

/-- C5 (amended): `get_secret` never raises — every failure of either
source (missing SDK, network error, malformed data) is absorbed — and,
provided every cached value and every value `json.loads` produces is a
mapping or null (as with JSON-object secrets), the outcome is exactly one
of a resolved mapping or the absence marker.  The proviso is needed
because a source value holding non-object JSON (such as `42`) is returned
as parsed. -/
theorem get_secret_absorbs_failures (w : SecretsWorld) (c : Cache) (n r : String)
    (hc : ∀ k v, cacheLookup c k = some v → mappingOrAbsent v = true)
    (hj : ∀ s v, w.jsonLoads s = some v → mappingOrAbsent v = true) :
    ∃ v c' t, get_secret w c n r = Except.ok (v, c', t) ∧
      mappingOrAbsent v = true := by
  unfold get_secret
  cases hl : cacheLookup c n with
  | some v => exact ⟨v, c, [], rfl, hc n v hl⟩
  | none =>
      obtain ⟨sv, hfa, hm⟩ := fetch_from_aws_mapping w n r hj
      cases hsn : sv.isNone with
      | false =>
          exact ⟨sv, cacheInsert c n sv, [SEvent.awsCall n r], by simp [hfa, hsn], hm⟩
      | true =>
          obtain ⟨ev, hfe, hm2⟩ := fetch_from_env_mapping w n hj
          exact ⟨ev, cacheInsert c n ev, [SEvent.awsCall n r, SEvent.envCall n],
            by simp [hfa, hsn, hfe], hm2⟩

theorem get_secret_absorbs_failures_witness :
    ∃ v c' t, get_secret emptyWorld [] "amptimal/smtp" "us-east-1" =
      Except.ok (v, c', t) ∧ mappingOrAbsent v = true :=
  get_secret_absorbs_failures emptyWorld [] "amptimal/smtp" "us-east-1"
    (fun k v h => by simp [cacheLookup] at h)
    (fun s v h => by simp [emptyWorld] at h)

/-- C6: a populated cache entry (present or absent) is served from the
cache with no source invocation; for an uncached name, two successive
calls return the same value, the second one from the cache with no
events, the primary source being invoked exactly once across both calls;
and when neither source yields a value, the shared returned value is the
absence marker. -/
theorem get_secret_cache_invariant (w : SecretsWorld) (c : Cache) (n r : String) :
    (∀ v, cacheLookup c n = some v → get_secret w c n r = Except.ok (v, c, [])) ∧
    (cacheLookup c n = Option.none →
      ∃ v c₁ t₁, get_secret w c n r = Except.ok (v, c₁, t₁) ∧
        awsCalls t₁ = 1 ∧
        get_secret w c₁ n r = Except.ok (v, c₁, []) ∧
        (fetch_from_aws w n r = Except.ok PyVal.none →
          w.env (envKey n) = Option.none → v = PyVal.none)) := by
  constructor
  · intro v hv
    exact get_secret_cached w c n r v hv
  · intro hnone
    obtain ⟨v, c', t, hget, hcnt, _, hlk⟩ := get_secret_uncached w c n r hnone
    refine ⟨v, c', t, hget, hcnt, get_secret_cached w c' n r v hlk, ?_⟩
    intro hfa henv
    have h2 : get_secret w c n r =
        Except.ok (PyVal.none, cacheInsert c n PyVal.none,
          [SEvent.awsCall n r, SEvent.envCall n]) := by
      unfold get_secret fetch_from_env
      rw [hnone, hfa, henv]
      rfl
    rw [hget] at h2
    injection h2 with h3
    exact congrArg (fun p => p.1) h3

theorem get_secret_cache_invariant_witness :
    ∃ v c₁ t₁, get_secret emptyWorld [] "amptimal/missing" "us-east-1" =
      Except.ok (v, c₁, t₁) ∧
      awsCalls t₁ = 1 ∧
      get_secret emptyWorld c₁ "amptimal/missing" "us-east-1" = Except.ok (v, c₁, []) ∧
      (fetch_from_aws emptyWorld "amptimal/missing" "us-east-1" = Except.ok PyVal.none →
        emptyWorld.env (envKey "amptimal/missing") = Option.none → v = PyVal.none) :=
  (get_secret_cache_invariant emptyWorld [] "amptimal/missing" "us-east-1").2 rfl

/-- C7: when the primary source yields nothing, the environment is
consulted under the derived key (slashes replaced by underscores,
upper-cased: `"amptimal/smtp"` → `"AMPTIMAL_SMTP"`); a variable holding
the JSON text `'{"host":"x"}'` resolves to the mapping `{"host": "x"}`,
and a variable holding the non-JSON raw string `"plain"` resolves to the
single-entry mapping `{"value": "plain"}`. -/
theorem env_fallback_parsing (w₁ w₂ : SecretsWorld) (c : Cache) (r : String)
    (hc : cacheLookup c "amptimal/smtp" = Option.none)
    (haws1 : fetch_from_aws w₁ "amptimal/smtp" r = Except.ok PyVal.none)
    (henv1 : w₁.env "AMPTIMAL_SMTP" = some jsonHostX)
    (hj1 : w₁.jsonLoads jsonHostX = some (PyVal.dict [("host", PyVal.str "x")]))
    (haws2 : fetch_from_aws w₂ "amptimal/smtp" r = Except.ok PyVal.none)
    (henv2 : w₂.env "AMPTIMAL_SMTP" = some "plain")
    (hj2 : w₂.jsonLoads "plain" = Option.none) :
    envKey "amptimal/smtp" = "AMPTIMAL_SMTP" ∧
    get_secret w₁ c "amptimal/smtp" r =
      Except.ok (PyVal.dict [("host", PyVal.str "x")],
        cacheInsert c "amptimal/smtp" (PyVal.dict [("host", PyVal.str "x")]),
        [SEvent.awsCall "amptimal/smtp" r, SEvent.envCall "amptimal/smtp"]) ∧
    get_secret w₂ c "amptimal/smtp" r =
      Except.ok (PyVal.dict [("value", PyVal.str "plain")],
        cacheInsert c "amptimal/smtp" (PyVal.dict [("value", PyVal.str "plain")]),
        [SEvent.awsCall "amptimal/smtp" r, SEvent.envCall "amptimal/smtp"]) := by
  have hk : envKey "amptimal/smtp" = "AMPTIMAL_SMTP" := rfl
  refine ⟨hk, ?_, ?_⟩
  · unfold get_secret fetch_from_env
    rw [hc, haws1, hk, henv1]
    simp [hj1, PyVal.isNone]
  · unfold get_secret fetch_from_env
    rw [hc, haws2, hk, henv2]
    simp [hj2, PyVal.isNone]

theorem env_fallback_parsing_witness :
    envKey "amptimal/smtp" = "AMPTIMAL_SMTP" ∧
    get_secret worldJson [] "amptimal/smtp" "us-east-1" =
      Except.ok (PyVal.dict [("host", PyVal.str "x")],
        cacheInsert [] "amptimal/smtp" (PyVal.dict [("host", PyVal.str "x")]),
        [SEvent.awsCall "amptimal/smtp" "us-east-1", SEvent.envCall "amptimal/smtp"]) ∧
    get_secret worldPlain [] "amptimal/smtp" "us-east-1" =
      Except.ok (PyVal.dict [("value", PyVal.str "plain")],
        cacheInsert [] "amptimal/smtp" (PyVal.dict [("value", PyVal.str "plain")]),
        [SEvent.awsCall "amptimal/smtp" "us-east-1", SEvent.envCall "amptimal/smtp"]) :=
  env_fallback_parsing worldJson worldPlain [] "us-east-1" rfl rfl rfl rfl rfl rfl rfl

/-- C8: `clear_cache` unconditionally empties every entry (present and
absent), and a resolution after `clear_cache` invokes the primary source
again: one primary-source invocation per uncached resolution, so an
instrumented count goes from 1 to 2 across resolve, clear, resolve. -/
theorem clear_cache_forces_refetch (w : SecretsWorld) (c : Cache) (n r : String)
    (hnone : cacheLookup c n = Option.none) :
    (∀ k, cacheLookup clear_cache k = Option.none) ∧
    (∃ v₁ c₁ t₁, get_secret w c n r = Except.ok (v₁, c₁, t₁) ∧ awsCalls t₁ = 1) ∧
    (∃ v₂ c₂ t₂, get_secret w clear_cache n r = Except.ok (v₂, c₂, t₂) ∧
      awsCalls t₂ = 1) := by
  refine ⟨fun k => rfl, ?_, ?_⟩
  · obtain ⟨v, c', t, hget, hcnt, _, _⟩ := get_secret_uncached w c n r hnone
    exact ⟨v, c', t, hget, hcnt⟩
  · obtain ⟨v, c', t, hget, hcnt, _, _⟩ := get_secret_uncached w clear_cache n r rfl
    exact ⟨v, c', t, hget, hcnt⟩

theorem clear_cache_forces_refetch_witness :
    (∀ k, cacheLookup clear_cache k = Option.none) ∧
    (∃ v₁ c₁ t₁, get_secret emptyWorld [] "amptimal/test" "us-east-1" =
      Except.ok (v₁, c₁, t₁) ∧ awsCalls t₁ = 1) ∧
    (∃ v₂ c₂ t₂, get_secret emptyWorld clear_cache "amptimal/test" "us-east-1" =
      Except.ok (v₂, c₂, t₂) ∧ awsCalls t₂ = 1) :=
  clear_cache_forces_refetch emptyWorld [] "amptimal/test" "us-east-1" rfl

/-- C10: the region argument is not part of the cache key: after a first
resolution of a name under region `r₁`, a call for the same name with any
region `r₂` returns the value resolved under `r₁` straight from the
cache, invoking neither source. -/
theorem region_not_in_cache_key (w : SecretsWorld) (c : Cache) (n r₁ r₂ : String)
    (v : PyVal) (c₁ : Cache) (t₁ : List SEvent)
    (hnone : cacheLookup c n = Option.none)
    (h1 : get_secret w c n r₁ = Except.ok (v, c₁, t₁)) :
    get_secret w c₁ n r₂ = Except.ok (v, c₁, []) := by
  obtain ⟨v', c', t', hget, _, _, hlk⟩ := get_secret_uncached w c n r₁ hnone
  rw [h1] at hget
  injection hget with h3
  have hv : v = v' := congrArg (fun p => p.1) h3
  have hc2 : c₁ = c' := congrArg (fun p => p.2.1) h3
  rw [hv, hc2]
  exact get_secret_cached w c' n r₂ v' hlk

theorem region_not_in_cache_key_witness :
    get_secret emptyWorld [("n", PyVal.none)] "n" "eu-west-1" =
      Except.ok (PyVal.none, [("n", PyVal.none)], []) :=
  region_not_in_cache_key emptyWorld [] "n" "us-east-1" "eu-west-1"
    PyVal.none [("n", PyVal.none)] [SEvent.awsCall "n" "us-east-1", SEvent.envCall "n"]
    rfl rfl

end Amptimal
